import Mathlib

/-!
Verification of the wipe-cli daemon core against its design document.

The Go sources are shallowly embedded: wall-clock instants are integers
counting seconds (every time value reachable from the calendar parser has
second granularity, since all accepted layouts are second-granular and the
minute truncation and window arithmetic stay on whole seconds). The
calendar window logic compares instants only (Go's After/Before), so
calendar events carry bare instants; the time value a refresh schedules is
embedded with both its instant and the UTC offset of the location it was
parsed in, because the conflict resolver groups by the RFC3339 rendering,
which shows the wall-clock fields in that location together with its
offset and is therefore injective on the (instant, offset) pair (for the
whole-minute offsets loadable zones have at the dates the parser handles).
The bucket scheduler's Go maps, keyed by the rendered minute-truncated
time, become association lists keyed by the truncated instant standing in
for the rendered string: its theorems are per-key properties whose content
does not depend on which string a key renders. The filesystem is a list of
(directory, file name) entries.
-/

namespace WipeCli

/-- config.Server (internal/config): the unit of configuration. -/
structure Server where
  name : String
  path : String
  calendarURL : String
  branch : String
  wipeBlueprints : Bool
  generateMap : Bool
deriving Repr, DecidableEq

/-- calendar.EventType: the two recognised event kinds. -/
inductive EventType where
  | restart
  | wipe
deriving Repr, DecidableEq

/-- calendar.Event: a materialised calendar occurrence; times in seconds. -/
structure Event where
  type : EventType
  startTime : Int
  endTime : Int
  summary : String
deriving Repr, DecidableEq

/-- A Go time.Time as the ICS parser produces it: the absolute instant
(seconds) plus the UTC offset (seconds east) of the location it was parsed
in - UTC for Z forms and unzoned forms, the loaded zone's offset for TZID
forms. Instant comparisons (After, Before, Truncate) read only the
instant; Format(time.RFC3339) renders instant + offset as wall-clock
fields together with the offset itself, so for whole-minute offsets the
rendering determines and is determined by this pair. -/
structure GoTime where
  instant : Int
  offset : Int
deriving Repr, DecidableEq

/-- scheduler.ScheduledEvent: an event paired with its server context. The
scheduled time keeps its parse zone, which the RFC3339 conflict key
renders. -/
structure ScheduledEvent where
  server : Server
  event : Event
  scheduled : GoTime
deriving Repr, DecidableEq

/-! ## ICS parser (internal/calendar, GetUpcomingEvents / expandRecurringEvent)

The external golang-ical and rrule-go libraries sit at the boundary: a
VEVENT is embedded post-parse (summary text, parsed DTSTART/DTEND instants),
and a recurrence rule is embedded as the occurrence stream it generates,
with rrule.Between(after, before, inc=true) returning, per that library's
documented semantics, the occurrences inside the closed interval
[after, before]. An RRULE whose text fails to parse is the .invalid case:
expandRecurringEvent returns the parse error and the caller appends
nothing. -/

/-- A recurrence rule: either unparseable or the stream of occurrence
instants it generates (abstracting rrule-go). -/
inductive RRule where
  | invalid
  | valid (occs : List Int)
deriving Repr, DecidableEq

/-- A VEVENT as it reaches GetUpcomingEvents after parsing. -/
structure VEvent where
  summary : Option String
  dtstart : Option Int
  dtend : Option Int
  rrule : Option RRule
deriving Repr, DecidableEq

/-- rrule-go r.Between(after, before, true): occurrences in [after, before]. -/
def rruleBetween (occs : List Int) (after before : Int) : List Int :=
  occs.filter (fun t => decide (after ≤ t) && decide (t ≤ before))

/-- calendar.expandRecurringEvent: query the rule over the window widened by
24h on each side, keep occurrences strictly inside (windowStart, windowEnd),
and give each the original end - start duration. -/
def expandRecurringEvent (startTime endTime : Int) (occs : List Int)
    (windowStart windowEnd : Int) (eventType : EventType) (summary : String) :
    List Event :=
  let occurrences := rruleBetween occs (windowStart - 24 * 3600) (windowEnd + 24 * 3600)
  let duration := endTime - startTime
  occurrences.filterMap (fun occurrence =>
    if decide (windowStart < occurrence) && decide (occurrence < windowEnd) then
      some { type := eventType, startTime := occurrence,
             endTime := occurrence + duration, summary := summary }
    else none)

/-- Go strings.ToLower restricted to ASCII letters (all recognised
summaries are ASCII, so this agrees with Go on every input that matters). -/
def asciiLower (c : Char) : Char :=
  if 'A' ≤ c ∧ c ≤ 'Z' then Char.ofNat (c.toNat + 32) else c

/-- The ASCII white space recognised by Go strings.TrimSpace. -/
def isSpaceChar (c : Char) : Bool :=
  c = ' ' || c = '\t' || c = '\n' || c = '\r'

/-- strings.ToLower(strings.TrimSpace(s)) as applied to a SUMMARY value. -/
def normalizeSummary (s : String) : String :=
  String.mk
    ((((s.data.dropWhile isSpaceChar).reverse.dropWhile isSpaceChar).reverse).map asciiLower)

/-- The summary classification in GetUpcomingEvents: only the exact strings
restart and wipe (after trim and lowercase) are accepted. -/
def classifySummary (s : String) : Option EventType :=
  if s = "restart" then some EventType.restart
  else if s = "wipe" then some EventType.wipe
  else none

/-- DTEND handling: default to start + 1h when absent. -/
def eventEnd (startTime : Int) (dtend : Option Int) : Int :=
  match dtend with
  | some e => e
  | none => startTime + 3600

/-- The per-VEVENT body of the loop in calendar.GetUpcomingEvents. -/
def processVEvent (now windowEnd : Int) (v : VEvent) : List Event :=
  match v.summary with
  | none => []
  | some raw =>
    let summary := normalizeSummary raw
    match classifySummary summary with
    | none => []
    | some eventType =>
      match v.dtstart with
      | none => []
      | some startTime =>
        let endTime := eventEnd startTime v.dtend
        match v.rrule with
        | some RRule.invalid => []
        | some (RRule.valid occs) =>
            expandRecurringEvent startTime endTime occs now windowEnd eventType summary
        | none =>
            if decide (now < startTime) && decide (startTime < windowEnd) then
              [{ type := eventType, startTime := startTime,
                 endTime := endTime, summary := summary }]
            else []

/-- calendar.GetUpcomingEvents: window end is now + lookaheadHours hours. -/
def GetUpcomingEvents (vs : List VEvent) (now : Int) (lookaheadHours : Int) :
    List Event :=
  vs.flatMap (processVEvent now (now + 3600 * lookaheadHours))

/-! ## Batch executor (internal/executor)

The filesystem visible to the wipe step is a list of (directory, name)
entries; external scripts and the parallel sync are represented by their
success/failure outcome, supplied in a BatchEnv. -/

/-- A file, identified by its containing directory and its base name. -/
structure FileEntry where
  dir : String
  name : String
deriving Repr, DecidableEq

/-- filepath.Match restricted to the patterns the executor uses: literal
characters and the star wildcard (none of the wipe patterns contains a
question mark, a character class or an escape, and the matched names
contain no path separator). -/
def globMatch : List Char → List Char → Bool
  | [], [] => true
  | [], _ :: _ => false
  | '*' :: ps, [] => globMatch ps []
  | '*' :: ps, c :: cs => globMatch ps (c :: cs) || globMatch ('*' :: ps) cs
  | _ :: _, [] => false
  | p :: ps, c :: cs => p == c && globMatch ps cs
termination_by ps cs => (ps.length, cs.length)

/-- filepath.Base: strip trailing separators and keep the final element. -/
def baseName (p : String) : String :=
  let parts := (p.splitOn "/").filter (fun s => s ≠ "")
  match parts.getLast? with
  | some b => b
  | none => if p = "" then "." else "/"

/-- The identity directory wiped for a server:
filepath.Join(server.Path, "server", filepath.Base(server.Path)), for the
cleaned absolute paths the config stores. -/
def serverDataDir (server : Server) : String :=
  server.path ++ "/server/" ++ baseName server.path

/-- executor.wipeServerData's pattern list: the fixed four patterns, plus
player.blueprints.* exactly when the server's wipe_blueprints flag is set. -/
def wipePatterns (wipeBlueprints : Bool) : List String :=
  ["*.map", "*.sav*", "player.states.*.db*", "sv.files.*.db*"] ++
    (if wipeBlueprints then ["player.blueprints.*"] else [])

/-- One iteration of wipeServerData's pattern loop: glob the pattern inside
the data directory and delete each match with os.Remove; a file whose
delete fails (deleteFails) is logged and left in place. -/
def removePattern (dataDir : String) (deleteFails : FileEntry → Bool)
    (fs : List FileEntry) (pattern : String) : List FileEntry :=
  fs.filter (fun f =>
    !(f.dir == dataDir && globMatch pattern.toList f.name.toList && !deleteFails f))

/-- executor.wipeServerData: run the pattern loop over the server's data
directory. Every return path in the source is return nil, so the Except
carries no error case in practice. -/
def wipeServerData (server : Server) (deleteFails : FileEntry → Bool)
    (fs : List FileEntry) : Except String (List FileEntry) :=
  Except.ok
    ((wipePatterns server.wipeBlueprints).foldl
      (removePattern (serverDataDir server) deleteFails) fs)

/-- Step 3 of ExecuteEventBatch: iterate the servers in batch order, wipe
those whose path is in the wipe set, and return early on a wipe error. -/
def wipeStep (servers : List Server) (wipeSet : List String)
    (deleteFails : FileEntry → Bool) (fs : List FileEntry) :
    Except String (List FileEntry) :=
  match servers with
  | [] => Except.ok fs
  | server :: rest =>
    if wipeSet.contains server.path then
      (wipeServerData server deleteFails fs).bind
        (fun fs2 => wipeStep rest wipeSet deleteFails fs2)
    else wipeStep rest wipeSet deleteFails fs

/-- The five batch steps, used to record the execution trace. -/
inductive Step where
  | stop
  | sync
  | wipe
  | hook
  | start
deriving Repr, DecidableEq

/-- The outcomes of the external collaborators during one batch: the stop
script, the parallel sync, the pre-start hook and the start script, plus
the filesystem and the set of files whose os.Remove fails. -/
structure BatchEnv where
  stopOk : Bool
  syncOk : Bool
  hookOk : Bool
  startOk : Bool
  deleteFails : FileEntry → Bool
  fs : List FileEntry

/-- executor.ExecuteEventBatch: stop, sync, wipe (guarded by a non-empty
wipe set), pre-start hook (failure logged only), start. Returns the trace
of steps that ran and the error result. -/
def ExecuteEventBatch (servers : List Server) (wipeSet : List String)
    (env : BatchEnv) : List Step × Except String Unit :=
  if env.stopOk = false then ([Step.stop], Except.error "failed to stop servers")
  else if env.syncOk = false then
    ([Step.stop, Step.sync], Except.error "failed to update servers")
  else
    let afterWipe : List Step × Except String Unit :=
      if wipeSet.isEmpty then ([Step.stop, Step.sync], Except.ok ())
      else
        match wipeStep servers wipeSet env.deleteFails env.fs with
        | Except.error e => ([Step.stop, Step.sync, Step.wipe], Except.error e)
        | Except.ok _ => ([Step.stop, Step.sync, Step.wipe], Except.ok ())
    match afterWipe with
    | (tr, Except.error e) => (tr, Except.error e)
    | (tr, Except.ok _) =>
      if env.startOk = false then
        (tr ++ [Step.hook, Step.start], Except.error "failed to start servers")
      else (tr ++ [Step.hook, Step.start], Except.ok ())

/-- A file wiped for this server: in its data directory and matching one of
its patterns. -/
def wipedBy (server : Server) (f : FileEntry) : Bool :=
  f.dir == serverDataDir server &&
    (wipePatterns server.wipeBlueprints).any (fun p => globMatch p.toList f.name.toList)

/-! ## Sync worker (executor.syncServer) and branch locks (steamcmd, carbon)

syncServer is embedded as the sequence of filesystem operations its body
performs, so that the presence or absence of lock operations is a fact
about the definition. -/

/-- The operations a sync worker can perform. -/
inductive SyncOp where
  | acquireRustRead (branch : String)
  | acquireCarbonRead (branch : String)
  | releaseRead (branch : String)
  | removeDir (dir : String)
  | rsyncTree (src dst : String)
deriving Repr, DecidableEq

/-- Whether an operation acquires a branch read lock. -/
def isLockAcquire : SyncOp → Bool
  | SyncOp.acquireRustRead _ => true
  | SyncOp.acquireCarbonRead _ => true
  | _ => false

/-- executor.syncServer, as the ordered list of operations its body
performs: remove the four stale Rust directories, rsync the Rust branch
tree, remove the three stale Carbon directories, rsync the Carbon branch
tree. The body contains no lock call. -/
def syncServerOps (server : Server) : List SyncOp :=
  let rustSource :=
    if server.branch = "" then "/opt/rust/main" else "/opt/rust/" ++ server.branch
  let carbonSource :=
    if server.branch = "" then "/opt/carbon/main" else "/opt/carbon/" ++ server.branch
  [SyncOp.removeDir (server.path ++ "/RustDedicated_Data"),
   SyncOp.removeDir (server.path ++ "/Bundles"),
   SyncOp.removeDir (server.path ++ "/steamapps"),
   SyncOp.removeDir (server.path ++ "/steamcmd"),
   SyncOp.rsyncTree rustSource server.path,
   SyncOp.removeDir (server.path ++ "/carbon/native"),
   SyncOp.removeDir (server.path ++ "/carbon/managed"),
   SyncOp.removeDir (server.path ++ "/carbon/tools"),
   SyncOp.rsyncTree carbonSource server.path]

/-- steamcmd.AcquireReadLock: the branch whose registry lock the reader
takes; the empty branch is normalised to main before the lookup. -/
def acquireReadLockKey (branch : String) : String :=
  if branch = "" then "main" else branch

/-- steamcmd.InstallRustBranch's writer acquisition: getBranchLock(branch)
is called with the raw branch name, with no normalisation. -/
def installRustWriteLockKey (branch : String) : String :=
  branch

/-- steamcmd.getBranchLock over a registry of already-created branch keys:
create the key on first use, and return the key the caller will lock on.
Nothing ever removes a key. -/
def getBranchLock (registry : List String) (branch : String) :
    List String × String :=
  if branch ∈ registry then (registry, branch) else (branch :: registry, branch)

/-! ## Conflict resolution (scheduler.resolveConflicts) and refresh timeline

resolveConflicts groups the candidate list by server path and by the
scheduled time rendered with time.RFC3339 - a rendering with second
precision and no minute truncation, and one that shows the parse zone's
offset: two times render equally iff they agree on both the instant and
the offset, so the group key is (path, instant, offset). In particular a
wipe parsed from a Z form and a restart parsed from a TZID form at the
very same instant render differently and fall into different groups. Go
map iteration visits groups in an unspecified order; the embedding fixes
the order of the deduplicated key list, which no theorem below depends
on. -/

/-- The grouping key of resolveConflicts: the server path and the full
time value the RFC3339 rendering determines (instant and parse-zone
offset, at second precision). -/
structure ConflictKey where
  serverPath : String
  time : GoTime
deriving Repr, DecidableEq

/-- The key under which resolveConflicts groups a candidate. -/
def conflictKey (e : ScheduledEvent) : ConflictKey :=
  { serverPath := e.server.path, time := e.scheduled }

/-- The group of candidates sharing a key, in candidate order (Go appends
to the keyed slice in iteration order). -/
def groupFor (events : List ScheduledEvent) (k : ConflictKey) :
    List ScheduledEvent :=
  events.filter (fun e => decide (conflictKey e = k))

/-- The distinct keys of the candidate list. -/
def keysOf (events : List ScheduledEvent) : List ConflictKey :=
  (events.map conflictKey).dedup

/-- The body of resolveConflicts's per-group loop: a single candidate is
kept as is; otherwise the first wipe wins, and failing that the first
candidate is kept. -/
def resolveGroup (group : List ScheduledEvent) : Option ScheduledEvent :=
  if group.length = 1 then group.head?
  else
    match group.find? (fun e => decide (e.event.type = EventType.wipe)) with
    | some w => some w
    | none => group.head?

/-- scheduler.resolveConflicts: one kept candidate per group. -/
def resolveConflicts (events : List ScheduledEvent) : List ScheduledEvent :=
  (keysOf events).filterMap (fun k => resolveGroup (groupFor events k))

/-- The timeline a refresh stores: resolveConflicts followed by the sort on
scheduled time (sort.Slice with Before is an unstable sort; any sort on the
scheduled instant is the same timeline up to permutation, and nothing below
depends on the order of equal instants). -/
def updateTimeline (events : List ScheduledEvent) : List ScheduledEvent :=
  (resolveConflicts events).insertionSort
    (fun a b => a.scheduled.instant ≤ b.scheduled.instant)

/-! ## Bucket scheduler (scheduler.scheduleJobs and the timer task)

The scheduler state mirrors the three maps guarded by the mutex:
scheduledJobs (time key to gocron job id), jobEvents (time key to the
mutable event list) and executingJobs (the keys currently executing),
together with a counter standing in for gocron's fresh job ids. Time keys
are the minute-truncated instants, standing in for the rendered key
strings the Go maps use: every theorem below is a per-key property (what
is created, preserved or removed at one key), so its content is the same
for any choice of key identity. -/

/-- time.Truncate(time.Minute): round down to a whole minute. -/
def truncMinute (t : Int) : Int :=
  t - t % 60

/-- The bucket key of a scheduled event: time.Truncate reads the absolute
instant, and the truncated instant stands in for the rendered key string
(the bucket theorems are per-key properties that do not depend on the
key's identity). -/
def timeKey (e : ScheduledEvent) : Int :=
  truncMinute e.scheduled.instant

/-- Association list lookup keyed by Int. -/
def alGet {β : Type} : List (Int × β) → Int → Option β
  | [], _ => none
  | (k1, v) :: rest, k => if k1 = k then some v else alGet rest k

/-- Association list update (Go map assignment). -/
def alSet {β : Type} : List (Int × β) → Int → β → List (Int × β)
  | [], k, v => [(k, v)]
  | (k1, v1) :: rest, k, v =>
    if k1 = k then (k1, v) :: rest else (k1, v1) :: alSet rest k v

/-- The scheduler's mutable state. -/
structure SchedulerState where
  scheduledJobs : List (Int × Nat)
  jobEvents : List (Int × List ScheduledEvent)
  executingJobs : List Int
  nextJobId : Nat

/-- The distinct bucket keys of an event list (the keys of eventGroups). -/
def groupKeys (events : List ScheduledEvent) : List Int :=
  (events.map timeKey).dedup

/-- The events grouped under one bucket key. -/
def eventGroup (events : List ScheduledEvent) (k : Int) : List ScheduledEvent :=
  events.filter (fun e => decide (timeKey e = k))

/-- One iteration of scheduleJobs's first loop for the bucket key k: skip a
past minute; update the event list in place when a job already exists;
otherwise store the list and create a fresh gocron job. -/
def processGroup (now : Int) (events : List ScheduledEvent)
    (s : SchedulerState) (k : Int) : SchedulerState :=
  if k < now then s
  else if (alGet s.scheduledJobs k).isSome then
    { s with jobEvents := alSet s.jobEvents k (eventGroup events k) }
  else
    { s with
      jobEvents := alSet s.jobEvents k (eventGroup events k),
      scheduledJobs := alSet s.scheduledJobs k s.nextJobId,
      nextJobId := s.nextJobId + 1 }

/-- The keys scheduleJobs's second loop removes: scheduled jobs whose key
is absent from the current groups and not currently executing. -/
def staleKeys (s : SchedulerState) (currentKeys : List Int) : List Int :=
  (s.scheduledJobs.map Prod.fst).filter
    (fun k => !decide (k ∈ currentKeys) && !decide (k ∈ s.executingJobs))

/-- scheduleJobs's second loop: cancel and drop the stale buckets. -/
def cancelStale (currentKeys : List Int) (s : SchedulerState) : SchedulerState :=
  let rem := staleKeys s currentKeys
  { s with
    scheduledJobs := s.scheduledJobs.filter (fun p => !decide (p.1 ∈ rem)),
    jobEvents := s.jobEvents.filter (fun p => !decide (p.1 ∈ rem)) }

/-- scheduler.scheduleJobs under the mutex: group the timeline, run the
update-or-create loop over the group keys, then cancel stale buckets. -/
def scheduleJobs (now : Int) (events : List ScheduledEvent)
    (s : SchedulerState) : SchedulerState :=
  let keys := groupKeys events
  cancelStale keys (keys.foldl (processGroup now events) s)

/-- The first mutex section of the gocron task closure: mark the key as
executing and snapshot the current event list for the key. -/
def timerFire (s : SchedulerState) (k : Int) :
    SchedulerState × Option (List ScheduledEvent) :=
  ({ s with executingJobs := k :: s.executingJobs }, alGet s.jobEvents k)

/-- scheduler.executeEventGroupInternal's view of a batch: the servers of
the snapshot in order, and the set of paths needing a wipe. -/
def batchOf (events : List ScheduledEvent) : List Server × List String :=
  (events.map (fun e => e.server),
   ((events.filter (fun e => decide (e.event.type = EventType.wipe))).map
      (fun e => e.server.path)).dedup)

/-- What the task body executes from its snapshot: nothing when the key was
gone or drained, else the batch built from the snapshot alone. -/
def taskExecutes (snap : Option (List ScheduledEvent)) :
    Option (List Server × List String) :=
  match snap with
  | none => none
  | some evs => if evs.isEmpty then none else some (batchOf evs)

/-- The snapshot the task would take from a state. -/
def taskSnapshot (s : SchedulerState) (k : Int) : Option (List ScheduledEvent) :=
  alGet s.jobEvents k

/-! ## Theorems -/

/-- Claim C8: for a VEVENT with no RRULE, GetUpcomingEvents emits the event
if and only if its start lies strictly inside (now, now + lookahead_hours):
an event at exactly now + lookahead_hours is excluded, and one any positive
amount below that bound (keeping it inside the window) is included. -/
theorem c8_single_event_window (v : VEvent) (now lookaheadHours start : Int)
    (raw : String) (ty : EventType)
    (hsum : v.summary = some raw)
    (hty : classifySummary (normalizeSummary raw) = some ty)
    (hst : v.dtstart = some start)
    (hrr : v.rrule = none) :
    (GetUpcomingEvents [v] now lookaheadHours =
      if now < start ∧ start < now + 3600 * lookaheadHours then
        [{ type := ty, startTime := start, endTime := eventEnd start v.dtend,
           summary := normalizeSummary raw }]
      else []) ∧
    (start = now + 3600 * lookaheadHours →
      GetUpcomingEvents [v] now lookaheadHours = []) ∧
    (∀ d : Int, 0 < d → d < 3600 * lookaheadHours →
      start = now + 3600 * lookaheadHours - d →
      GetUpcomingEvents [v] now lookaheadHours =
        [{ type := ty, startTime := start, endTime := eventEnd start v.dtend,
           summary := normalizeSummary raw }]) := by
  have hmain : GetUpcomingEvents [v] now lookaheadHours =
      if now < start ∧ start < now + 3600 * lookaheadHours then
        [{ type := ty, startTime := start, endTime := eventEnd start v.dtend,
           summary := normalizeSummary raw }]
      else [] := by
    simp only [GetUpcomingEvents, List.flatMap_cons, List.flatMap_nil,
      List.append_nil, processVEvent, hsum, hty, hst, hrr]
    by_cases h : now < start ∧ start < now + 3600 * lookaheadHours
    · simp [h.1, h.2]
    · rw [if_neg h]
      rcases not_and_or.mp h with h1 | h1 <;> simp [h1]
  refine ⟨hmain, ?_, ?_⟩
  · intro hb
    rw [hmain, if_neg]
    omega
  · intro d hd0 hdlt hb
    rw [hmain, if_pos]
    omega

/-- Witness for C8: a wipe VEVENT 100 seconds below the 1-hour window end is
emitted with its parsed end time and normalised summary. -/
theorem c8_single_event_window_witness :
    (0:Int) < 100 ∧ (100:Int) < 3600 * 1 ∧
    GetUpcomingEvents [⟨some " Wipe ", some 3500, some 3550, none⟩] 0 1 =
      [{ type := EventType.wipe, startTime := 3500, endTime := 3550,
         summary := "wipe" }] := by
  refine ⟨by decide, by decide, ?_⟩
  have h := c8_single_event_window ⟨some " Wipe ", some 3500, some 3550, none⟩
    0 1 3500 " Wipe " EventType.wipe rfl (by decide) rfl rfl
  exact h.2.2 100 (by decide) (by decide) (by decide)

/-- Counterexample for C9: a recurrence occurrence exactly at now lies in
the claim's kept window [now, now + lookahead) and in its widened expansion
window, yet GetUpcomingEvents emits nothing for it: the code keeps only
occurrences strictly after now. -/
theorem c9_counterexample :
    ((1000:Int) - 24 * 3600 ≤ 1000 ∧ (1000:Int) < 1000 + 3600 * 1 + 24 * 3600) ∧
    ((1000:Int) ≤ 1000 ∧ (1000:Int) < 1000 + 3600 * 1) ∧
    GetUpcomingEvents [⟨some "wipe", some 500, some 800, some (RRule.valid [1000])⟩]
      1000 1 = [] := by
  refine ⟨by decide, by decide, ?_⟩
  decide

/-- Claim C9 (amended): for a VEVENT with an RRULE, the emitted events are
exactly the occurrences of the rule lying strictly inside
(now, now + lookahead_hours) - the expansion's widened query window
[now - 1d, now + lookahead + 1d] is transparent - and each emitted
occurrence's end time is its start plus the original end - start
duration. -/
theorem c9_recurring_window (v : VEvent) (now lookaheadHours start : Int)
    (raw : String) (ty : EventType) (occs : List Int) (ev : Event)
    (hsum : v.summary = some raw)
    (hty : classifySummary (normalizeSummary raw) = some ty)
    (hst : v.dtstart = some start)
    (hrr : v.rrule = some (RRule.valid occs)) :
    ev ∈ GetUpcomingEvents [v] now lookaheadHours ↔
      ∃ t, t ∈ occs ∧ now < t ∧ t < now + 3600 * lookaheadHours ∧
        ev = { type := ty, startTime := t,
               endTime := t + (eventEnd start v.dtend - start),
               summary := normalizeSummary raw } := by
  simp only [GetUpcomingEvents, List.flatMap_cons, List.flatMap_nil,
    List.append_nil, processVEvent, hsum, hty, hst, hrr, expandRecurringEvent,
    rruleBetween, List.mem_filterMap, List.mem_filter, Bool.and_eq_true,
    decide_eq_true_eq]
  constructor
  · rintro ⟨t, ⟨⟨htmem, hlo, hhi⟩, hsome⟩⟩
    by_cases hwin : now < t ∧ t < now + 3600 * lookaheadHours
    · rw [if_pos (by simpa using hwin)] at hsome
      exact ⟨t, htmem, hwin.1, hwin.2, (Option.some.injEq _ _).mp hsome |>.symm⟩
    · rw [if_neg (by simpa using hwin)] at hsome
      exact absurd hsome (Option.noConfusion)
  · rintro ⟨t, htmem, h1, h2, hev⟩
    refine ⟨t, ⟨⟨htmem, by omega, by omega⟩, ?_⟩⟩
    rw [if_pos (by simp [h1, h2])]
    exact congrArg some hev.symm

/-- Witness for C9 (amended): a thrice-occurring restart rule emits exactly
the occurrence strictly inside the 1-hour window, with the 1-hour default
duration attached. -/
theorem c9_recurring_window_witness :
    classifySummary (normalizeSummary "restart") = some EventType.restart ∧
    ((⟨EventType.restart, 2000, 5600, "restart"⟩ : Event) ∈
        GetUpcomingEvents [⟨some "restart", some 100, none, some (RRule.valid [50, 2000, 90000])⟩] 0 1 ↔
      ∃ t, t ∈ [(50:Int), 2000, 90000] ∧ 0 < t ∧ t < 0 + 3600 * 1 ∧
        (⟨EventType.restart, 2000, 5600, "restart"⟩ : Event) =
          { type := EventType.restart, startTime := t,
            endTime := t + (eventEnd 100 none - 100),
            summary := normalizeSummary "restart" }) := by
  refine ⟨by decide, ?_⟩
  exact c9_recurring_window ⟨some "restart", some 100, none, some (RRule.valid [50, 2000, 90000])⟩
    0 1 100 "restart" EventType.restart [50, 2000, 90000]
    ⟨EventType.restart, 2000, 5600, "restart"⟩ rfl (by decide) rfl rfl

/-- De Morgan split of a one-pattern extension of the wipe pattern list. -/
private theorem bool_split_pattern (a m r d : Bool) :
    (!(a && (m || r) && !d)) = ((!(a && r && !d)) && (!(a && m && !d))) := by
  revert a m r d
  decide

/-- De Morgan split of a one-server extension of the wipe server loop. -/
private theorem bool_split_server (w a d : Bool) :
    (!((w || a) && !d)) = ((!(a && !d)) && (!(w && !d))) := by
  revert w a d
  decide

/-- The pattern loop of wipeServerData deletes exactly the files of the data
directory matching some pattern whose removal succeeds. -/
theorem foldl_removePattern (dataDir : String) (df : FileEntry → Bool)
    (ps : List String) (fs : List FileEntry) :
    ps.foldl (removePattern dataDir df) fs =
      fs.filter (fun f =>
        !(f.dir == dataDir && ps.any (fun p => globMatch p.toList f.name.toList)
          && !df f)) := by
  induction ps generalizing fs with
  | nil => simp
  | cons p ps ih =>
    rw [List.foldl_cons, ih, removePattern, List.filter_filter]
    congr 1
    funext f
    rw [List.any_cons, Bool.or_comm, bool_split_pattern, Bool.and_comm]

/-- executor.wipeServerData never fails, and deletes exactly the files of
the server's data directory matching its pattern set whose delete
succeeds. -/
theorem wipeServerData_spec (server : Server) (df : FileEntry → Bool)
    (fs : List FileEntry) :
    wipeServerData server df fs =
      Except.ok (fs.filter (fun f => !(wipedBy server f && !df f))) := by
  rw [wipeServerData, foldl_removePattern]
  rfl

/-- The wipe step never fails and deletes exactly the files claimed by a
wipe-set server whose delete succeeds. -/
theorem wipeStep_spec (servers : List Server) (wipeSet : List String)
    (df : FileEntry → Bool) (fs : List FileEntry) :
    wipeStep servers wipeSet df fs =
      Except.ok (fs.filter (fun f =>
        !(servers.any (fun sv => wipeSet.contains sv.path && wipedBy sv f)
          && !df f))) := by
  induction servers generalizing fs with
  | nil => simp [wipeStep]
  | cons sv svs ih =>
    rw [wipeStep]
    by_cases hc : wipeSet.contains sv.path
    · rw [if_pos hc, wipeServerData_spec]
      simp only [Except.bind]
      rw [ih, List.filter_filter]
      congr 1
      apply List.filter_congr
      intro f _
      rw [List.any_cons, hc, Bool.true_and, Bool.or_comm, bool_split_server,
        Bool.and_comm, wipedBy]
    · rw [if_neg hc, ih]
      congr 1
      apply List.filter_congr
      intro f _
      have hc2 : wipeSet.contains sv.path = false := Bool.eq_false_iff.mpr hc
      rw [List.any_cons, hc2, Bool.false_and, Bool.false_or]

/-- Claim C6: the wipe step never fails (zero glob matches and individual
delete failures included), and the surviving filesystem keeps exactly the
files not claimed by a successful delete of a wipe-set server: a file is
deleted iff some batch server with its path in the wipe set owns the file's
directory as its data directory, the name matches one of that server's
patterns (blueprints included exactly when wipe_blueprints is set), and the
delete does not fail. -/
theorem c6_wipe_step_exact (servers : List Server) (wipeSet : List String)
    (df : FileEntry → Bool) (fs : List FileEntry) :
    wipeStep servers wipeSet df fs =
      Except.ok (fs.filter (fun f =>
        !(servers.any (fun sv => wipeSet.contains sv.path && wipedBy sv f)
          && !df f))) :=
  wipeStep_spec servers wipeSet df fs

/-- Claim C5: ExecuteEventBatch runs its steps in the order stop, sync,
wipe, hook, start; it fails exactly when the stop script, the sync step, or
the start script fails, aborting at the failing step; the pre-start hook's
outcome never affects the result; the wipe step cannot fail. -/
theorem c5_batch_order_and_failures (servers : List Server)
    (wipeSet : List String) (env : BatchEnv) :
    ((ExecuteEventBatch servers wipeSet env).1).Sublist
      [Step.stop, Step.sync, Step.wipe, Step.hook, Step.start] ∧
    ((ExecuteEventBatch servers wipeSet env).2 = Except.ok () ↔
      (env.stopOk = true ∧ env.syncOk = true ∧ env.startOk = true)) ∧
    (env.stopOk = false → (ExecuteEventBatch servers wipeSet env).1 = [Step.stop]) ∧
    (env.stopOk = true → env.syncOk = false →
      (ExecuteEventBatch servers wipeSet env).1 = [Step.stop, Step.sync]) ∧
    (env.stopOk = true → env.syncOk = true →
      Step.hook ∈ (ExecuteEventBatch servers wipeSet env).1 ∧
      Step.start ∈ (ExecuteEventBatch servers wipeSet env).1) := by
  obtain ⟨stopOk, syncOk, hookOk, startOk, df, fs⟩ := env
  cases stopOk <;> cases syncOk <;> cases startOk <;>
    by_cases hw : wipeSet.isEmpty <;>
      simp [ExecuteEventBatch, wipeStep_spec, hw]

/-- Witness for C5: with stop, sync and start succeeding but the pre-start
hook failing, the batch still reaches hook and start and returns success. -/
theorem c5_batch_order_and_failures_witness :
    (BatchEnv.mk true true false true (fun _ => false) []).stopOk = true ∧
    (BatchEnv.mk true true false true (fun _ => false) []).syncOk = true ∧
    (Step.hook ∈ (ExecuteEventBatch [⟨"a", "/srv/a", "u", "main", true, false⟩]
        ["/srv/a"] (BatchEnv.mk true true false true (fun _ => false) [])).1 ∧
      Step.start ∈ (ExecuteEventBatch [⟨"a", "/srv/a", "u", "main", true, false⟩]
        ["/srv/a"] (BatchEnv.mk true true false true (fun _ => false) [])).1) ∧
    (ExecuteEventBatch [⟨"a", "/srv/a", "u", "main", true, false⟩]
        ["/srv/a"] (BatchEnv.mk true true false true (fun _ => false) [])).2 =
      Except.ok () := by
  have h := c5_batch_order_and_failures [⟨"a", "/srv/a", "u", "main", true, false⟩]
    ["/srv/a"] (BatchEnv.mk true true false true (fun _ => false) [])
  exact ⟨rfl, rfl, h.2.2.2.2 rfl rfl, h.2.1.mpr ⟨rfl, rfl, rfl⟩⟩

/-- Claim C4 (code divergence): executor.syncServer performs its cleanup
and both tree copies without a single lock operation - no sync worker ever
acquires a branch read lock, so the claimed reader-lock guard (and with it
the install/sync disjointness it would give) is absent from the code. The
comments on steamcmd.AcquireReadLock and on InstallRustBranch's writer
acquisition both say the locks exist to guard syncServer, which never calls
them. -/
theorem c4_sync_acquires_no_locks (server : Server) :
    ((syncServerOps server).any isLockAcquire) = false ∧
    (syncServerOps server).length = 9 := by
  obtain ⟨n, p, u, b, w, g⟩ := server
  by_cases hb : b = "" <;> simp [syncServerOps, isLockAcquire, hb]

/-- Claim C10 (code divergence): steamcmd.AcquireReadLock normalises the
empty branch to main, but the writer acquisition inside InstallRustBranch
passes the raw branch name to getBranchLock, so for the empty branch the
reader and the writer operate on different registry keys, hence on
different locks. The registry itself does create a lock on first use and
never deletes one. -/
theorem c10_empty_branch_lock_mismatch :
    acquireReadLockKey "" = "main" ∧
    installRustWriteLockKey "" = "" ∧
    installRustWriteLockKey "" ≠ acquireReadLockKey "" ∧
    acquireReadLockKey "main" = "main" ∧
    installRustWriteLockKey "main" = "main" ∧
    getBranchLock [] "" = (
      [""], "") ∧
    getBranchLock [""] "" = ([""], "") := by
  refine ⟨rfl, rfl, by decide, rfl, rfl, by decide, by decide⟩

/-- Whatever resolveGroup keeps came from the group. -/
theorem resolveGroup_mem {g : List ScheduledEvent} {e : ScheduledEvent}
    (h : resolveGroup g = some e) : e ∈ g := by
  rw [resolveGroup] at h
  split at h
  · exact List.mem_of_mem_head? h
  · split at h
    · next w hfind =>
      cases h
      exact List.mem_of_find?_eq_some hfind
    · exact List.mem_of_mem_head? h

/-- Every member of a key's group carries that key. -/
theorem mem_groupFor {events : List ScheduledEvent} {k : ConflictKey}
    {e : ScheduledEvent} (h : e ∈ groupFor events k) : conflictKey e = k := by
  have := (List.mem_filter.mp h).2
  simpa using this

/-- Keys absent from the visited key list contribute nothing with key k. -/
theorem filterMap_filter_key_absent (k : ConflictKey)
    (f : ConflictKey → Option ScheduledEvent)
    (hf : ∀ k2 e, f k2 = some e → conflictKey e = k2) :
    ∀ ks : List ConflictKey, k ∉ ks →
      (ks.filterMap f).filter (fun e => decide (conflictKey e = k)) = [] := by
  intro ks
  induction ks with
  | nil => intro _; rfl
  | cons k1 ks ih =>
    intro hk
    have hk1 : k1 ≠ k := fun h => hk (h ▸ List.mem_cons_self k1 ks)
    have hks : k ∉ ks := fun h => hk (List.mem_cons_of_mem k1 h)
    rw [List.filterMap_cons]
    cases hfk : f k1 with
    | none => exact ih hks
    | some e =>
      rw [List.filter_cons]
      have : conflictKey e = k1 := hf k1 e hfk
      rw [if_neg (by simp [this, hk1])]
      exact ih hks

/-- Over a duplicate-free key list containing k, the per-group outputs with
key k are exactly the output of the group of k. -/
theorem filterMap_filter_key (k : ConflictKey)
    (f : ConflictKey → Option ScheduledEvent)
    (hf : ∀ k2 e, f k2 = some e → conflictKey e = k2) :
    ∀ ks : List ConflictKey, ks.Nodup → k ∈ ks →
      (ks.filterMap f).filter (fun e => decide (conflictKey e = k)) =
        (f k).toList := by
  intro ks
  induction ks with
  | nil => intro _ h; cases h
  | cons k1 ks ih =>
    intro hnd hk
    have hnd1 : k1 ∉ ks := (List.nodup_cons.mp hnd).1
    have hndks : ks.Nodup := (List.nodup_cons.mp hnd).2
    rw [List.filterMap_cons]
    rcases List.mem_cons.mp hk with heq | hmem
    · subst heq
      have hks : k ∉ ks := hnd1
      cases hfk : f k with
      | none => simpa [hfk] using filterMap_filter_key_absent k f hf ks hks
      | some e =>
        rw [List.filter_cons]
        have : conflictKey e = k := hf k e hfk
        rw [if_pos (by simp [this])]
        rw [filterMap_filter_key_absent k f hf ks hks]
        simp
    · have hk1 : k1 ≠ k := fun h => hnd1 (h ▸ hmem)
      cases hfk : f k1 with
      | none => exact ih hndks hmem
      | some e =>
        rw [List.filter_cons]
        have : conflictKey e = k1 := hf k1 e hfk
        rw [if_neg (by simp [this, hk1])]
        exact ih hndks hmem

/-- The kept candidate of a contested group with a wipe: resolveConflicts
keeps exactly one candidate for the key, and it is a wipe. -/
theorem resolveConflicts_filter_eq (events : List ScheduledEvent)
    (k : ConflictKey)
    (h2 : 2 ≤ (groupFor events k).length)
    (hw : ∃ e, e ∈ groupFor events k ∧ e.event.type = EventType.wipe) :
    ∃ w, (resolveConflicts events).filter
        (fun e => decide (conflictKey e = k)) = [w] ∧
      w.event.type = EventType.wipe := by
  obtain ⟨e0, he0, hty0⟩ := hw
  have hfindSome : ((groupFor events k).find?
      (fun e => decide (e.event.type = EventType.wipe))).isSome = true := by
    rw [List.find?_isSome]
    exact ⟨e0, he0, by simp [hty0]⟩
  obtain ⟨w, hfind⟩ := Option.isSome_iff_exists.mp hfindSome
  have hwty : w.event.type = EventType.wipe := by
    have := List.find?_some hfind
    simpa using this
  have hres : resolveGroup (groupFor events k) = some w := by
    rw [resolveGroup, if_neg (by omega), hfind]
  have hf : ∀ k2 e, resolveGroup (groupFor events k2) = some e →
      conflictKey e = k2 := fun k2 e h => mem_groupFor (resolveGroup_mem h)
  have hkmem : k ∈ keysOf events := by
    rw [keysOf, List.mem_dedup]
    have := mem_groupFor he0
    exact this ▸ List.mem_map_of_mem conflictKey (List.mem_of_mem_filter he0)
  have := filterMap_filter_key k (fun k2 => resolveGroup (groupFor events k2))
    hf (keysOf events) (List.nodup_dedup _) hkmem
  rw [resolveConflicts, this]
  refine ⟨w, ?_, hwty⟩
  simp [hres]

/-- Counterexample for C1, in two parts. First, one server with a wipe at
second 0 and a restart at second 30 of the same minute, both UTC: the
minute-truncated pair occurs twice among the candidates with a wipe among
them, yet the timeline keeps both events for that minute pair - the
RFC3339 grouping key keeps seconds - and one of them is the restart.
Second, a wipe parsed from a Z form (offset 0) and a restart parsed from a
TZID form (America/New_York, offset -18000) at the very same instant
17:00:00Z: the pair shares the exact instant, and so also the truncated
minute, yet both survive - the rendering differs by zone - so keying the
pair by the bare instant would still be false. -/
theorem c1_counterexample :
    (([(⟨⟨"a", "/srv/a", "u", "main", false, false⟩,
          ⟨EventType.wipe, 1800, 5400, "wipe"⟩, ⟨1800, 0⟩⟩ : ScheduledEvent),
        ⟨⟨"a", "/srv/a", "u", "main", false, false⟩,
          ⟨EventType.restart, 1830, 5430, "restart"⟩, ⟨1830, 0⟩⟩].filter
        (fun e => decide (e.server.path = "/srv/a" ∧
          truncMinute e.scheduled.instant = 1800))).length = 2) ∧
    (∃ e, e ∈ [(⟨⟨"a", "/srv/a", "u", "main", false, false⟩,
          ⟨EventType.wipe, 1800, 5400, "wipe"⟩, ⟨1800, 0⟩⟩ : ScheduledEvent),
        ⟨⟨"a", "/srv/a", "u", "main", false, false⟩,
          ⟨EventType.restart, 1830, 5430, "restart"⟩, ⟨1830, 0⟩⟩] ∧
      e.event.type = EventType.wipe) ∧
    ((updateTimeline [⟨⟨"a", "/srv/a", "u", "main", false, false⟩,
          ⟨EventType.wipe, 1800, 5400, "wipe"⟩, ⟨1800, 0⟩⟩,
        ⟨⟨"a", "/srv/a", "u", "main", false, false⟩,
          ⟨EventType.restart, 1830, 5430, "restart"⟩, ⟨1830, 0⟩⟩]).filter
        (fun e => decide (e.server.path = "/srv/a" ∧
          truncMinute e.scheduled.instant = 1800))).length = 2 ∧
    (∃ e, e ∈ (updateTimeline [⟨⟨"a", "/srv/a", "u", "main", false, false⟩,
          ⟨EventType.wipe, 1800, 5400, "wipe"⟩, ⟨1800, 0⟩⟩,
        ⟨⟨"a", "/srv/a", "u", "main", false, false⟩,
          ⟨EventType.restart, 1830, 5430, "restart"⟩, ⟨1830, 0⟩⟩]).filter
        (fun e => decide (e.server.path = "/srv/a" ∧
          truncMinute e.scheduled.instant = 1800)) ∧
      e.event.type = EventType.restart) ∧
    (([(⟨⟨"a", "/srv/a", "u", "main", false, false⟩,
          ⟨EventType.wipe, 61200, 64800, "wipe"⟩, ⟨61200, 0⟩⟩ : ScheduledEvent),
        ⟨⟨"a", "/srv/a", "u", "main", false, false⟩,
          ⟨EventType.restart, 61200, 64800, "restart"⟩,
          ⟨61200, -18000⟩⟩].filter
        (fun e => decide (e.server.path = "/srv/a" ∧
          truncMinute e.scheduled.instant = 61200 ∧
          e.scheduled.instant = 61200))).length = 2) ∧
    (∃ e, e ∈ [(⟨⟨"a", "/srv/a", "u", "main", false, false⟩,
          ⟨EventType.wipe, 61200, 64800, "wipe"⟩, ⟨61200, 0⟩⟩ : ScheduledEvent),
        ⟨⟨"a", "/srv/a", "u", "main", false, false⟩,
          ⟨EventType.restart, 61200, 64800, "restart"⟩, ⟨61200, -18000⟩⟩] ∧
      e.event.type = EventType.wipe) ∧
    ((updateTimeline [⟨⟨"a", "/srv/a", "u", "main", false, false⟩,
          ⟨EventType.wipe, 61200, 64800, "wipe"⟩, ⟨61200, 0⟩⟩,
        ⟨⟨"a", "/srv/a", "u", "main", false, false⟩,
          ⟨EventType.restart, 61200, 64800, "restart"⟩,
          ⟨61200, -18000⟩⟩]).filter
        (fun e => decide (e.server.path = "/srv/a" ∧
          truncMinute e.scheduled.instant = 61200 ∧
          e.scheduled.instant = 61200))).length = 2 ∧
    (∃ e, e ∈ (updateTimeline [⟨⟨"a", "/srv/a", "u", "main", false, false⟩,
          ⟨EventType.wipe, 61200, 64800, "wipe"⟩, ⟨61200, 0⟩⟩,
        ⟨⟨"a", "/srv/a", "u", "main", false, false⟩,
          ⟨EventType.restart, 61200, 64800, "restart"⟩,
          ⟨61200, -18000⟩⟩]).filter
        (fun e => decide (e.server.path = "/srv/a" ∧
          truncMinute e.scheduled.instant = 61200 ∧
          e.scheduled.instant = 61200)) ∧
      e.event.type = EventType.restart) := by
  refine ⟨by decide, by decide, by decide, by decide,
    by decide, by decide, by decide, by decide⟩

/-- Claim C1 (amended): for every refresh producing a timeline, and every
(server path, scheduled time as the RFC3339 key renders it) pair -
determined by the exact instant at full second precision together with the
offset of the zone the time was parsed in - appearing at least twice in
the pre-conflict candidate list, if any candidate for that pair is a wipe
then the timeline contains exactly one event for that pair and it is a
wipe. -/
theorem c1_exact_time_conflict (events : List ScheduledEvent) (k : ConflictKey)
    (h2 : 2 ≤ (groupFor events k).length)
    (hw : ∃ e, e ∈ groupFor events k ∧ e.event.type = EventType.wipe) :
    ((updateTimeline events).filter
        (fun e => decide (conflictKey e = k))).length = 1 ∧
    ((updateTimeline events).filter (fun e => decide (conflictKey e = k))).all
      (fun e => decide (e.event.type = EventType.wipe)) = true := by
  obtain ⟨w, hfil, hwty⟩ := resolveConflicts_filter_eq events k h2 hw
  have hperm : (updateTimeline events).Perm (resolveConflicts events) :=
    List.perm_insertionSort _ _
  have hlen : ((updateTimeline events).filter
      (fun e => decide (conflictKey e = k))).length =
      ((resolveConflicts events).filter
        (fun e => decide (conflictKey e = k))).length := by
    rw [← List.countP_eq_length_filter, ← List.countP_eq_length_filter]
    exact hperm.countP_eq _
  constructor
  · rw [hlen, hfil]
    rfl
  · rw [List.all_eq_true]
    intro e he
    have hmem : e ∈ (resolveConflicts events).filter
        (fun e => decide (conflictKey e = k)) := by
      have hpf : ((updateTimeline events).filter
          (fun e => decide (conflictKey e = k))).Perm
          ((resolveConflicts events).filter
            (fun e => decide (conflictKey e = k))) := hperm.filter _
      exact hpf.mem_iff.mp he
    rw [hfil] at hmem
    have : e = w := by simpa using hmem
    simp [this, hwty]

/-- Witness for C1 (amended): a wipe and a restart for the same server at
the same rendered time (same instant, same parse zone) collapse to the
single wipe in the timeline. -/
theorem c1_exact_time_conflict_witness :
    2 ≤ (groupFor [(⟨⟨"a", "/srv/a", "u", "main", false, false⟩,
          ⟨EventType.wipe, 1800, 5400, "wipe"⟩, ⟨1800, 0⟩⟩ : ScheduledEvent),
        ⟨⟨"a", "/srv/a", "u", "main", false, false⟩,
          ⟨EventType.restart, 1800, 5400, "restart"⟩, ⟨1800, 0⟩⟩]
        ⟨"/srv/a", ⟨1800, 0⟩⟩).length ∧
    ((updateTimeline [(⟨⟨"a", "/srv/a", "u", "main", false, false⟩,
          ⟨EventType.wipe, 1800, 5400, "wipe"⟩, ⟨1800, 0⟩⟩ : ScheduledEvent),
        ⟨⟨"a", "/srv/a", "u", "main", false, false⟩,
          ⟨EventType.restart, 1800, 5400, "restart"⟩, ⟨1800, 0⟩⟩]).filter
        (fun e => decide (conflictKey e = ⟨"/srv/a", ⟨1800, 0⟩⟩))).length = 1 ∧
    ((updateTimeline [(⟨⟨"a", "/srv/a", "u", "main", false, false⟩,
          ⟨EventType.wipe, 1800, 5400, "wipe"⟩, ⟨1800, 0⟩⟩ : ScheduledEvent),
        ⟨⟨"a", "/srv/a", "u", "main", false, false⟩,
          ⟨EventType.restart, 1800, 5400, "restart"⟩, ⟨1800, 0⟩⟩]).filter
        (fun e => decide (conflictKey e = ⟨"/srv/a", ⟨1800, 0⟩⟩))).all
      (fun e => decide (e.event.type = EventType.wipe)) = true := by
  have h := c1_exact_time_conflict
    [(⟨⟨"a", "/srv/a", "u", "main", false, false⟩,
        ⟨EventType.wipe, 1800, 5400, "wipe"⟩, ⟨1800, 0⟩⟩ : ScheduledEvent),
      ⟨⟨"a", "/srv/a", "u", "main", false, false⟩,
        ⟨EventType.restart, 1800, 5400, "restart"⟩, ⟨1800, 0⟩⟩]
    ⟨"/srv/a", ⟨1800, 0⟩⟩ (by decide) (by decide)
  exact ⟨by decide, h.1, h.2⟩

/-- Updating one key leaves lookups of another key unchanged. -/
theorem alGet_alSet_ne {β : Type} (l : List (Int × β)) (k1 k : Int) (v : β)
    (hne : k1 ≠ k) : alGet (alSet l k1 v) k = alGet l k := by
  induction l with
  | nil => simp [alSet, alGet, hne]
  | cons p rest ih =>
    obtain ⟨kp, vp⟩ := p
    by_cases h : kp = k1
    · subst h
      simp [alSet, alGet, hne]
    · simp only [alSet, if_neg h]
      by_cases h2 : kp = k
      · subst h2
        simp [alGet]
      · simp [alGet, h2, ih]

/-- Updating a key makes its lookup the new value. -/
theorem alGet_alSet_self {β : Type} (l : List (Int × β)) (k : Int) (v : β) :
    alGet (alSet l k v) k = some v := by
  induction l with
  | nil => simp [alSet, alGet]
  | cons p rest ih =>
    obtain ⟨kp, vp⟩ := p
    by_cases h : kp = k
    · subst h
      simp [alSet, alGet]
    · simp [alSet, alGet, h, ih]

/-- Filtering out only other keys leaves a key's lookup unchanged. -/
theorem alGet_filter_keep {β : Type} (l : List (Int × β)) (k : Int)
    (rem : List Int) (hk : k ∉ rem) :
    alGet (l.filter (fun p => !decide (p.1 ∈ rem))) k = alGet l k := by
  induction l with
  | nil => rfl
  | cons p rest ih =>
    obtain ⟨kp, vp⟩ := p
    by_cases h : kp = k
    · subst h
      rw [List.filter_cons, if_pos (by simpa using hk)]
      simp [alGet, ih]
    · rw [List.filter_cons]
      by_cases hr : kp ∈ rem
      · rw [if_neg (by simpa using hr)]
        simp [alGet, h, ih]
      · rw [if_pos (by simpa using hr)]
        simp [alGet, h, ih]

/-- A key absent from an association list stays absent after any filter. -/
theorem alGet_none_filter {β : Type} (l : List (Int × β)) (k : Int)
    (p : Int × β → Bool) (h : alGet l k = none) :
    alGet (l.filter p) k = none := by
  induction l with
  | nil => rfl
  | cons q rest ih =>
    obtain ⟨kq, vq⟩ := q
    by_cases hq : kq = k
    · subst hq
      simp [alGet] at h
    · simp only [alGet, if_neg hq] at h
      rw [List.filter_cons]
      by_cases hp : p (kq, vq) = true
      · rw [if_pos hp]
        simp [alGet, hq, ih h]
      · rw [if_neg hp]
        exact ih h

/-- processGroup never touches the executing set. -/
theorem processGroup_executing (now : Int) (events : List ScheduledEvent)
    (s : SchedulerState) (k1 : Int) :
    (processGroup now events s k1).executingJobs = s.executingJobs := by
  rw [processGroup]
  split
  · rfl
  · split <;> rfl

/-- processGroup on another key leaves a key's two map entries unchanged. -/
theorem processGroup_preserve (now : Int) (events : List ScheduledEvent)
    (s : SchedulerState) (k1 k : Int) (hne : k1 ≠ k) :
    alGet (processGroup now events s k1).scheduledJobs k =
      alGet s.scheduledJobs k ∧
    alGet (processGroup now events s k1).jobEvents k = alGet s.jobEvents k := by
  rw [processGroup]
  split
  · exact ⟨rfl, rfl⟩
  · split
    · exact ⟨rfl, alGet_alSet_ne _ _ _ _ hne⟩
    · exact ⟨alGet_alSet_ne _ _ _ _ hne, alGet_alSet_ne _ _ _ _ hne⟩

/-- The first scheduleJobs loop over keys not containing k preserves k's
entries and the executing set. -/
theorem foldl_processGroup_preserve (now : Int) (events : List ScheduledEvent)
    (k : Int) :
    ∀ (ks : List Int) (s : SchedulerState), k ∉ ks →
      alGet (ks.foldl (processGroup now events) s).scheduledJobs k =
        alGet s.scheduledJobs k ∧
      alGet (ks.foldl (processGroup now events) s).jobEvents k =
        alGet s.jobEvents k ∧
      (ks.foldl (processGroup now events) s).executingJobs =
        s.executingJobs := by
  intro ks
  induction ks with
  | nil => intro s _; exact ⟨rfl, rfl, rfl⟩
  | cons k1 ks ih =>
    intro s hk
    have hne : k1 ≠ k := fun h => hk (h ▸ List.mem_cons_self k1 ks)
    have hks : k ∉ ks := fun h => hk (List.mem_cons_of_mem k1 h)
    rw [List.foldl_cons]
    obtain ⟨h1, h2, h3⟩ := ih (processGroup now events s k1) hks
    obtain ⟨p1, p2⟩ := processGroup_preserve now events s k1 k hne
    exact ⟨h1.trans p1, h2.trans p2,
      h3.trans (processGroup_executing now events s k1)⟩

/-- The executing set survives the whole first loop. -/
theorem foldl_processGroup_executing (now : Int) (events : List ScheduledEvent) :
    ∀ (ks : List Int) (s : SchedulerState),
      (ks.foldl (processGroup now events) s).executingJobs =
        s.executingJobs := by
  intro ks
  induction ks with
  | nil => intro s; rfl
  | cons k1 ks ih =>
    intro s
    rw [List.foldl_cons]
    exact (ih _).trans (processGroup_executing now events s k1)

/-- A key in the current groups or currently executing is never stale. -/
theorem not_mem_staleKeys (s : SchedulerState) (currentKeys : List Int)
    (k : Int) (h : k ∈ currentKeys ∨ k ∈ s.executingJobs) :
    k ∉ staleKeys s currentKeys := by
  intro hmem
  rw [staleKeys] at hmem
  have := (List.mem_filter.mp hmem).2
  rcases h with h | h <;> simp [h] at this

/-- cancelStale leaves the entries of a non-stale key unchanged, and never
touches the executing set. -/
theorem cancelStale_preserve (currentKeys : List Int) (s : SchedulerState)
    (k : Int) (h : k ∉ staleKeys s currentKeys) :
    alGet (cancelStale currentKeys s).scheduledJobs k =
      alGet s.scheduledJobs k ∧
    alGet (cancelStale currentKeys s).jobEvents k = alGet s.jobEvents k ∧
    (cancelStale currentKeys s).executingJobs = s.executingJobs :=
  ⟨alGet_filter_keep _ _ _ h, alGet_filter_keep _ _ _ h, rfl⟩

/-- Claim C2: once the timer task has set a bucket's executing flag, a
reconcile whose timeline no longer contains the bucket's key leaves the
bucket's timer handle and event list entries exactly as they were, keeps
the key executing, and therefore leaves unchanged the snapshot-built batch
the in-flight executor runs on. -/
theorem c2_executing_bucket_immune (s : SchedulerState) (k now : Int)
    (events : List ScheduledEvent)
    (hexec : k ∈ s.executingJobs)
    (habsent : k ∉ groupKeys events) :
    alGet (scheduleJobs now events s).scheduledJobs k =
      alGet s.scheduledJobs k ∧
    alGet (scheduleJobs now events s).jobEvents k = alGet s.jobEvents k ∧
    k ∈ (scheduleJobs now events s).executingJobs ∧
    taskExecutes (taskSnapshot (scheduleJobs now events s) k) =
      taskExecutes (taskSnapshot s k) := by
  rw [scheduleJobs]
  set s1 := (groupKeys events).foldl (processGroup now events) s with hs1
  obtain ⟨h1, h2, h3⟩ :=
    foldl_processGroup_preserve now events k (groupKeys events) s habsent
  have hexec1 : k ∈ s1.executingJobs := by rw [← hs1] at h3; rw [h3]; exact hexec
  have hstale : k ∉ staleKeys s1 (groupKeys events) :=
    not_mem_staleKeys s1 (groupKeys events) k (Or.inr hexec1)
  obtain ⟨c1, c2, c3⟩ := cancelStale_preserve (groupKeys events) s1 k hstale
  refine ⟨c1.trans h1, c2.trans h2, ?_, ?_⟩
  · rw [c3]; exact hexec1
  · rw [taskSnapshot, taskSnapshot, c2.trans h2]

/-- Witness for C2: with the key 1800 executing and a timeline that no
longer mentions it, both entries, the flag and the executor's batch
survive a reconcile at time 1900. -/
theorem c2_executing_bucket_immune_witness :
    (1800 : Int) ∈ [(1800 : Int)] ∧
    (1800 : Int) ∉ groupKeys [] ∧
    alGet (scheduleJobs 1900 []
        (SchedulerState.mk [(1800, 7)]
          [(1800, [⟨⟨"a", "/srv/a", "u", "main", false, false⟩,
            ⟨EventType.wipe, 1800, 5400, "wipe"⟩, ⟨1800, 0⟩⟩])] [1800] 8)).scheduledJobs
      1800 = some 7 := by
  have h := c2_executing_bucket_immune
    (SchedulerState.mk [(1800, 7)]
      [(1800, [⟨⟨"a", "/srv/a", "u", "main", false, false⟩,
        ⟨EventType.wipe, 1800, 5400, "wipe"⟩, ⟨1800, 0⟩⟩])] [1800] 8)
    1800 1900 [] (by decide) (by decide)
  exact ⟨by decide, by decide, h.1.trans (by decide)⟩

/-- Claim C3: a reconcile that still contains a bucket key with an existing
job, before the bucket's minute has passed, replaces only the bucket's
event list, leaves the timer handle untouched, and the task's snapshot at
fire time is the post-reconcile membership. -/
theorem c3_membership_update_keeps_timer (s : SchedulerState) (k now : Int)
    (events : List ScheduledEvent)
    (hjob : (alGet s.scheduledJobs k).isSome = true)
    (hpresent : k ∈ groupKeys events)
    (hfuture : ¬ k < now) :
    alGet (scheduleJobs now events s).scheduledJobs k =
      alGet s.scheduledJobs k ∧
    alGet (scheduleJobs now events s).jobEvents k =
      some (eventGroup events k) ∧
    (timerFire (scheduleJobs now events s) k).2 =
      some (eventGroup events k) := by
  obtain ⟨l1, l2, hsplit⟩ := List.append_of_mem hpresent
  have hnd : (groupKeys events).Nodup := List.nodup_dedup _
  rw [hsplit] at hnd
  obtain ⟨hnd1, hnd2, hdisj⟩ := List.nodup_append.mp hnd
  have hk1 : k ∉ l1 := fun h => hdisj h (List.mem_cons_self k l2)
  have hk2 : k ∉ l2 := (List.nodup_cons.mp hnd2).1
  simp only [scheduleJobs]
  rw [hsplit, List.foldl_append, List.foldl_cons]
  set t1 := l1.foldl (processGroup now events) s with ht1
  obtain ⟨a1, a2, a3⟩ := foldl_processGroup_preserve now events k l1 s hk1
  have hjob1 : (alGet t1.scheduledJobs k).isSome = true := by
    rw [← ht1] at a1
    rw [a1]
    exact hjob
  have hpk : processGroup now events t1 k =
      { t1 with jobEvents := alSet t1.jobEvents k (eventGroup events k) } := by
    rw [processGroup, if_neg hfuture, if_pos hjob1]
  obtain ⟨b1, b2, b3⟩ :=
    foldl_processGroup_preserve now events k l2 (processGroup now events t1 k) hk2
  have hkc : k ∈ l1 ++ k :: l2 :=
    List.mem_append_right _ (List.mem_cons_self _ _)
  have hstale : k ∉ staleKeys (l2.foldl (processGroup now events)
      (processGroup now events t1 k)) (l1 ++ k :: l2) :=
    not_mem_staleKeys _ _ k (Or.inl hkc)
  obtain ⟨c1, c2, c3⟩ := cancelStale_preserve (l1 ++ k :: l2) _ k hstale
  have hsched : alGet (cancelStale (l1 ++ k :: l2)
      (l2.foldl (processGroup now events)
        (processGroup now events t1 k))).scheduledJobs k =
      alGet s.scheduledJobs k := by
    rw [c1, b1, hpk]
    rw [← ht1] at a1
    exact a1
  have hev : alGet (cancelStale (l1 ++ k :: l2)
      (l2.foldl (processGroup now events)
        (processGroup now events t1 k))).jobEvents k =
      some (eventGroup events k) := by
    rw [c2, b2, hpk]
    exact alGet_alSet_self _ _ _
  exact ⟨hsched, hev, hev⟩

/-- Witness for C3: a bucket at key 1800 with an existing job id 7, updated
by a reconcile at time 1700 carrying a new single-member group, keeps job 7
and fires on the new membership. -/
theorem c3_membership_update_keeps_timer_witness :
    ((alGet [((1800:Int), (7:Nat))] 1800).isSome = true) ∧
    ((1800:Int) ∈ groupKeys [⟨⟨"b", "/srv/b", "u", "main", false, false⟩,
      ⟨EventType.restart, 1830, 5430, "restart"⟩, ⟨1830, 0⟩⟩]) ∧
    alGet (scheduleJobs 1700
        [⟨⟨"b", "/srv/b", "u", "main", false, false⟩,
          ⟨EventType.restart, 1830, 5430, "restart"⟩, ⟨1830, 0⟩⟩]
        (SchedulerState.mk [(1800, 7)] [(1800, [])] [] 8)).scheduledJobs 1800 =
      some 7 ∧
    (timerFire (scheduleJobs 1700
        [⟨⟨"b", "/srv/b", "u", "main", false, false⟩,
          ⟨EventType.restart, 1830, 5430, "restart"⟩, ⟨1830, 0⟩⟩]
        (SchedulerState.mk [(1800, 7)] [(1800, [])] [] 8)) 1800).2 =
      some [⟨⟨"b", "/srv/b", "u", "main", false, false⟩,
        ⟨EventType.restart, 1830, 5430, "restart"⟩, ⟨1830, 0⟩⟩] := by
  have h := c3_membership_update_keeps_timer
    (SchedulerState.mk [(1800, 7)] [(1800, [])] [] 8) 1800 1700
    [⟨⟨"b", "/srv/b", "u", "main", false, false⟩,
      ⟨EventType.restart, 1830, 5430, "restart"⟩, ⟨1830, 0⟩⟩]
    (by decide) (by decide) (by decide)
  refine ⟨by decide, by decide, h.1.trans (by decide), h.2.2.trans ?_⟩
  decide

/-- The first scheduleJobs loop never creates anything for a key whose
minute lies in the past. -/
theorem foldl_processGroup_none (now : Int) (events : List ScheduledEvent)
    (k : Int) (hpast : k < now) :
    ∀ (ks : List Int) (s : SchedulerState),
      alGet s.scheduledJobs k = none → alGet s.jobEvents k = none →
      alGet (ks.foldl (processGroup now events) s).scheduledJobs k = none ∧
      alGet (ks.foldl (processGroup now events) s).jobEvents k = none := by
  intro ks
  induction ks with
  | nil => intro s h1 h2; exact ⟨h1, h2⟩
  | cons k1 ks ih =>
    intro s h1 h2
    rw [List.foldl_cons]
    by_cases hk : k1 = k
    · subst hk
      rw [processGroup, if_pos hpast]
      exact ih s h1 h2
    · obtain ⟨p1, p2⟩ := processGroup_preserve now events s k1 k hk
      exact ih _ (p1.trans h1) (p2.trans h2)

/-- A whole reconcile never creates anything for a key whose minute lies in
the past. -/
theorem scheduleJobs_none (now : Int) (events : List ScheduledEvent)
    (s : SchedulerState) (k : Int) (hpast : k < now)
    (h1 : alGet s.scheduledJobs k = none)
    (h2 : alGet s.jobEvents k = none) :
    alGet (scheduleJobs now events s).scheduledJobs k = none ∧
    alGet (scheduleJobs now events s).jobEvents k = none := by
  simp only [scheduleJobs]
  obtain ⟨f1, f2⟩ :=
    foldl_processGroup_none now events k hpast (groupKeys events) s h1 h2
  exact ⟨alGet_none_filter _ _ _ f1, alGet_none_filter _ _ _ f2⟩

/-- Claim C7: an event whose minute-truncated scheduled time is strictly
before the wall-clock time of every reconcile that observes it never gets a
job, never gets an event-list entry, and the timer task's empty-snapshot
guard means nothing would ever execute for its key - even when the
un-truncated start time is still in the future at the first observation. -/
theorem c7_past_minute_never_scheduled (e : ScheduledEvent)
    (rs : List (Int × List ScheduledEvent)) (s : SchedulerState)
    (hall : ∀ r ∈ rs, timeKey e < r.1)
    (hjob : alGet s.scheduledJobs (timeKey e) = none)
    (hevs : alGet s.jobEvents (timeKey e) = none) :
    alGet ((rs.foldl (fun st r => scheduleJobs r.1 r.2 st) s)).scheduledJobs
      (timeKey e) = none ∧
    alGet ((rs.foldl (fun st r => scheduleJobs r.1 r.2 st) s)).jobEvents
      (timeKey e) = none ∧
    taskExecutes (taskSnapshot
      (rs.foldl (fun st r => scheduleJobs r.1 r.2 st) s) (timeKey e)) =
      none := by
  induction rs generalizing s with
  | nil =>
    refine ⟨hjob, hevs, ?_⟩
    rw [List.foldl_nil, taskSnapshot, hevs]
    rfl
  | cons r rs ih =>
    obtain ⟨g1, g2⟩ := scheduleJobs_none r.1 r.2 s (timeKey e)
      (hall r (List.mem_cons_self r rs)) hjob hevs
    rw [List.foldl_cons]
    exact ih _ (fun q hq => hall q (List.mem_cons_of_mem r hq)) g1 g2

/-- Witness for C7: an event at second 30 of a past minute, observed by
reconciles at seconds 10 and 40 of that minute (both after the minute
began), never acquires a job or an event list, and its key executes
nothing. -/
theorem c7_past_minute_never_scheduled_witness :
    (∀ r ∈ [((1810:Int), [(⟨⟨"c", "/srv/c", "u", "main", false, false⟩,
        ⟨EventType.wipe, 1830, 5430, "wipe"⟩, ⟨1830, 0⟩⟩ : ScheduledEvent)]),
      ((1840:Int), [(⟨⟨"c", "/srv/c", "u", "main", false, false⟩,
        ⟨EventType.wipe, 1830, 5430, "wipe"⟩, ⟨1830, 0⟩⟩ : ScheduledEvent)])],
      timeKey (⟨⟨"c", "/srv/c", "u", "main", false, false⟩,
        ⟨EventType.wipe, 1830, 5430, "wipe"⟩, ⟨1830, 0⟩⟩ : ScheduledEvent) < r.1) ∧
    alGet (([((1810:Int), [(⟨⟨"c", "/srv/c", "u", "main", false, false⟩,
        ⟨EventType.wipe, 1830, 5430, "wipe"⟩, ⟨1830, 0⟩⟩ : ScheduledEvent)]),
      ((1840:Int), [(⟨⟨"c", "/srv/c", "u", "main", false, false⟩,
        ⟨EventType.wipe, 1830, 5430, "wipe"⟩, ⟨1830, 0⟩⟩ : ScheduledEvent)])].foldl
        (fun st r => scheduleJobs r.1 r.2 st)
        (SchedulerState.mk [] [] [] 0))).scheduledJobs
      (timeKey (⟨⟨"c", "/srv/c", "u", "main", false, false⟩,
        ⟨EventType.wipe, 1830, 5430, "wipe"⟩, ⟨1830, 0⟩⟩ : ScheduledEvent)) =
      none := by
  have h := c7_past_minute_never_scheduled
    (⟨⟨"c", "/srv/c", "u", "main", false, false⟩,
      ⟨EventType.wipe, 1830, 5430, "wipe"⟩, ⟨1830, 0⟩⟩ : ScheduledEvent)
    [((1810:Int), [(⟨⟨"c", "/srv/c", "u", "main", false, false⟩,
        ⟨EventType.wipe, 1830, 5430, "wipe"⟩, ⟨1830, 0⟩⟩ : ScheduledEvent)]),
      ((1840:Int), [(⟨⟨"c", "/srv/c", "u", "main", false, false⟩,
        ⟨EventType.wipe, 1830, 5430, "wipe"⟩, ⟨1830, 0⟩⟩ : ScheduledEvent)])]
    (SchedulerState.mk [] [] [] 0) (by decide) rfl rfl
  exact ⟨by decide, h.1⟩

end WipeCli
